import Mathlib

/-!
Verification development for the locushack room-based chat / poker-ledger
WebSocket server.  The definitions below are a shallow embedding of the
TypeScript source: the room/poker server (the `rooms`-aware WebSocket server
with `settlePokerSession`) and the `LocusAgent` class with room context.
JavaScript `Map`s are modelled as association lists that preserve insertion
order, in-place mutation as explicit state passing, and JS numbers for
ledger amounts as `Int` (every amount in the claims and the spec scenarios is a whole-dollar figure, and no claim depends on fractional or floating-point behaviour).  `Date.now()` is threaded in as an explicit `now`
argument (one per handler invocation; timestamps play no role in any
property proved here).
-/

namespace Locus

/-- Insertion-ordered association-list lookup, modelling `Map.get`. -/
def alGet {κ α : Type} [DecidableEq κ] (l : List (κ × α)) (k : κ) : Option α :=
  (l.find? (fun p => p.1 = k)).map (fun p => p.2)

/-- Insertion-ordered association-list update, modelling `Map.set`:
an existing key is updated in place (keys are unique, so updating the first
occurrence is the `Map` semantics), a new key is appended. -/
def alSet {κ α : Type} [DecidableEq κ] (l : List (κ × α)) (k : κ) (v : α) :
    List (κ × α) :=
  match l with
  | [] => [(k, v)]
  | (k1, v1) :: t => if k1 = k then (k, v) :: t else (k1, v1) :: alSet t k v

/-- Key removal, modelling `Map.delete`. -/
def alDel {κ α : Type} [DecidableEq κ] (l : List (κ × α)) (k : κ) :
    List (κ × α) :=
  l.filter (fun p => p.1 ≠ k)

/-- The caller identity tag (`apiKey: 'main' | 'sunny' | 'host'`). -/
inductive ApiKey where
  | main
  | sunny
  | host
deriving DecidableEq, Repr

/-- `Participant` from shared/types.ts: username, optional wallet, identity tag. -/
structure Participant where
  username : String
  wallet : Option String
  apiKey : ApiKey
deriving DecidableEq, Repr

/-- One buy-in or cash-out record (`{player, amount, timestamp}`). -/
structure LedgerEntry where
  player : String
  amount : Int
  timestamp : Int
deriving DecidableEq, Repr

/-- `PokerSession` from shared/types.ts. -/
structure PokerSession where
  host : String
  buyIns : List LedgerEntry
  cashOuts : List LedgerEntry
deriving DecidableEq, Repr

/-- `RoomMode` from shared/types.ts. -/
inductive RoomMode where
  | casual
  | poker
  | trip
deriving DecidableEq, Repr

/-- `RoomState` from shared/types.ts; `contacts: Record<string,string>` is an
insertion-ordered association list. -/
structure RoomState where
  roomId : String
  roomName : String
  mode : RoomMode
  participants : List Participant
  contacts : List (String × String)
  pokerSession : Option PokerSession
deriving DecidableEq, Repr

/-- The server's `rooms` map (`Map<string, RoomState>`). -/
abbrev Rooms := List (String × RoomState)

/-- `entries.reduce((sum, e) => sum + e.amount, 0)`. -/
def totalOf (entries : List LedgerEntry) : Int :=
  entries.foldl (fun sum e => sum + e.amount) 0

/-- `recordBuyIn(roomId, player, amount)`: auto-creates the poker session on
the first buy-in (host := that player), appends the buy-in, and returns the
confirmation text with the running pot total. -/
def recordBuyIn (rooms : Rooms) (roomId player : String) (amount : Int)
    (now : Int) : Rooms × String :=
  match alGet rooms roomId with
  | none => (rooms, "Room not found")
  | some room =>
    let session :=
      match room.pokerSession with
      | none => { host := player, buyIns := [], cashOuts := [] : PokerSession }
      | some s => s
    let session2 :=
      { session with buyIns := session.buyIns ++ [⟨player, amount, now⟩] }
    let rooms2 := alSet rooms roomId { room with pokerSession := some session2 }
    let amtStr := toString amount
    let potStr := toString (totalOf session2.buyIns)
    (rooms2, s!"Recorded: {player} bought in for ${amtStr}. Total pot: ${potStr}")

/-- `recordCashOut(roomId, player, amount)`: fails (text result) when no
session is active, otherwise appends the cash-out. -/
def recordCashOut (rooms : Rooms) (roomId player : String) (amount : Int)
    (now : Int) : Rooms × String :=
  match alGet rooms roomId with
  | none => (rooms, "No poker session active. Start by recording a buy-in first.")
  | some room =>
    match room.pokerSession with
    | none => (rooms, "No poker session active. Start by recording a buy-in first.")
    | some session =>
      let session2 :=
        { session with cashOuts := session.cashOuts ++ [⟨player, amount, now⟩] }
      let rooms2 := alSet rooms roomId { room with pokerSession := some session2 }
      let amtStr := toString amount
      (rooms2, s!"Recorded: {player} cashing out ${amtStr}")

/-- One payment instruction `{to, amount}` in a settle result. -/
structure Payment where
  «to» : String
  amount : Int
deriving DecidableEq, Repr

/-- `participant?.wallet || co.player`: JS falsy fallback — `undefined` and
the empty string both fall back to the raw player name. -/
def walletOr (w : Option String) (fallback : String) : String :=
  match w with
  | some s => if s = "" then fallback else s
  | none => fallback

/-- Structured view of the `{success, message, payments?}` object built by
`settlePokerSession`, one constructor per return site.  `unbalanced` carries
the `diff` local computed in the code; `settled` carries the payments array. -/
inductive SettleResult where
  | noSession
  | notHost (host : String)
  | unbalanced (totalBuyIns totalCashOuts diff : Int)
  | settled (totalBuyIns totalCashOuts : Int) (payments : List Payment)
deriving DecidableEq, Repr

/-- The `success` field of the returned object. -/
def SettleResult.success : SettleResult → Bool
  | .settled _ _ _ => true
  | _ => false

/-- The `message` field of the returned object (emoji prefixes of the source
strings are elided; the numeric content is rendered exactly). -/
def SettleResult.message : SettleResult → String
  | .noSession => "No poker session active."
  | .notHost host => s!"Only {host} (the host) can settle the session."
  | .unbalanced tb tc d =>
    let tbStr := toString tb
    let tcStr := toString tc
    let sign := if d > 0 then "+" else ""
    let dStr := toString d
    s!"Cannot settle - amounts do not match! Buy-ins: ${tbStr} Cash outs: ${tcStr} Difference: ${sign}{dStr} Please adjust the cash out amounts."
  | .settled tb tc _ =>
    let tbStr := toString tb
    let tcStr := toString tc
    s!"Settlement Approved! Buy-ins: ${tbStr} Cash outs: ${tcStr} Ready to pay:"

/-- `settlePokerSession(roomId, requestingPlayer)`.  The source reads the
room and session and returns a result object without writing any state, so
the embedding passes `rooms` through unchanged.  Branch order follows the
source: no active session, then the host check, then the balance check,
then the payments map over the cash-outs (payee := the wallet of the
participant whose username equals the cash-out player, `||`-defaulted to
the raw player name). -/
def settlePokerSession (rooms : Rooms) (roomId requestingPlayer : String) :
    Rooms × SettleResult :=
  match alGet rooms roomId with
  | none => (rooms, .noSession)
  | some room =>
    match room.pokerSession with
    | none => (rooms, .noSession)
    | some session =>
      if session.host ≠ requestingPlayer then
        (rooms, .notHost session.host)
      else
        let totalBuyIns := totalOf session.buyIns
        let totalCashOuts := totalOf session.cashOuts
        if totalBuyIns ≠ totalCashOuts then
          (rooms, .unbalanced totalBuyIns totalCashOuts (totalBuyIns - totalCashOuts))
        else
          let payments := session.cashOuts.map (fun co =>
            let participant := room.participants.find? (fun p => p.username = co.player)
            { «to» := walletOr (participant.bind (fun p => p.wallet)) co.player,
              amount := co.amount : Payment })
          (rooms, .settled totalBuyIns totalCashOuts payments)

/-- The payee-resolution logic inlined in `settlePokerSession`: the wallet of
the participant whose username equals the player (JS `||`-falsy defaulting),
else the raw player name. -/
def resolvePayee (participants : List Participant) (player : String) : String :=
  walletOr ((participants.find? (fun q => q.username = player)).bind
    (fun q => q.wallet)) player

/-- Concrete poker session used by the C1 witness and the C2 counterexample:
hosted by "alice", balanced at $50. -/
def cexSessionC2 : PokerSession :=
  { host := "alice"
    buyIns := [⟨"alice", 50, 0⟩]
    cashOuts := [⟨"bob", 50, 1⟩] }

/-- Concrete room for the C2 counterexample: the contact book knows a wallet
for "bob" but no participant record does. -/
def cexRoomC2 : RoomState :=
  { roomId := "r"
    roomName := "Poker Night"
    mode := .poker
    participants := [⟨"alice", some "0xA", .main⟩]
    contacts := [("bob", "0xB")]
    pokerSession := some cexSessionC2 }

/-- The C2 counterexample server rooms map. -/
def cexRoomsC2 : Rooms := [("r", cexRoomC2)]

/-- One chat-log record (a `ChatMessage` after the server fills in sender
and timestamp). -/
structure ChatRecord where
  roomId : String
  text : String
  username : String
  timestamp : Int
deriving DecidableEq, Repr

/-- Server-to-client wire messages (the `ServerMessage` union). -/
inductive SMessage where
  | system (roomId : Option String) (text : String) (timestamp : Int)
  | chat (c : ChatRecord)
  | userList (users : List String)
  | roomList (rooms : List (String × String × RoomMode × Nat))
  | agent (roomId : String) (text : String) (timestamp : Int) (tools : List String)
  | agentProgress (roomId : String) (text : String) (tool : String) (elapsed : Int)
  | agentTyping (roomId : String) (isTyping : Bool)
deriving DecidableEq, Repr

/-- Per-connection mutable session attributes (the server's `Client`). -/
structure Client where
  apiKey : ApiKey
  currentRoom : Option String
  username : Option String
  wallet : Option String
deriving DecidableEq, Repr

/-- The four top-level mutable maps of the room server.  Connections are
keyed by an abstract connection id standing for the `WebSocket` object. -/
structure ServerState where
  rooms : Rooms
  clients : List (Nat × Client)
  roomMessages : List (String × List SMessage)
  roomChatHistory : List (String × List ChatRecord)
deriving DecidableEq, Repr

/-- Delivery target of an emitted message: one socket, every open socket in
a room (`broadcastToRoom`, with optional sender exclusion), or every socket. -/
inductive Target where
  | conn (cid : Nat)
  | room (roomId : String) (exclude : Option Nat)
  | all
deriving DecidableEq, Repr

/-- One emission, in order: a message sent towards a target. -/
structure Emit where
  target : Target
  msg : SMessage
deriving DecidableEq, Repr

/-- `roomMessages.get(roomId)?.push(msg)`: appends when the key is present
and silently does nothing otherwise (optional chaining). -/
def pushMsg (l : List (String × List SMessage)) (rid : String) (m : SMessage) :
    List (String × List SMessage) :=
  match alGet l rid with
  | some ms => alSet l rid (ms ++ [m])
  | none => l

/-- The chat-history append of the `chat` handler: `get(roomId) || []`, push,
`shift()` when the length exceeds 50, then `set`. -/
def pushChat (l : List (String × List ChatRecord)) (rid : String)
    (m : ChatRecord) : List (String × List ChatRecord) :=
  let h1 := (alGet l rid).getD [] ++ [m]
  alSet l rid (if h1.length > 50 then h1.tail else h1)

/-- The `room_list` payload (`roomId, roomName, mode, participantCount`). -/
def roomListOf (rooms : Rooms) : List (String × String × RoomMode × Nat) :=
  rooms.map (fun p => (p.2.roomId, p.2.roomName, p.2.mode, p.2.participants.length))

/-- `sendUserListToRoom`: broadcasts the usernames of the room's current
participants; does nothing for an unknown room. -/
def userListEmit (rooms : Rooms) (rid : String) : List Emit :=
  match alGet rooms rid with
  | none => []
  | some room =>
    [⟨.room rid none, .userList (room.participants.map (fun p => p.username))⟩]

/-- `message.wallet || null`: empty-string wallets are falsy and become null. -/
def walletOrNull (w : Option String) : Option String :=
  match w with
  | some s => if s = "" then none else some s
  | none => none

/-- The `join_room` handler of the room server.  Unknown room: reply to the
requester only.  A connection switching rooms first has the participants
bearing the requested username filtered out of the old room, a departure
system message pushed and broadcast there and that room's user list
refreshed; then the client record is updated, the participant is
(re)inserted in the target room (entries with the same username removed
first), the replay log is sent to the joiner, a joined system message is
pushed and broadcast, the user list is refreshed and the room list is
broadcast to every connection. -/
def joinRoomHandler (st : ServerState) (cid : Nat) (roomId username : String)
    (wallet : Option String) (now : Int) : ServerState × List Emit :=
  match alGet st.clients cid with
  | none => (st, [])
  | some client =>
    match alGet st.rooms roomId with
    | none =>
      (st, [⟨.conn cid, .system none (s!"Room not found: {roomId}") now⟩])
    | some room =>
      let step1 : ServerState × List Emit :=
        match client.currentRoom with
        | some oldRoomId =>
          if oldRoomId ≠ roomId then
            match alGet st.rooms oldRoomId with
            | some oldRoom =>
              let remaining := oldRoom.participants.filter (fun p => p.username ≠ username)
              let oldRoom2 := { oldRoom with participants := remaining }
              let rooms2 := alSet st.rooms oldRoomId oldRoom2
              let leaveMsg : SMessage :=
                .system (some oldRoomId) (s!"{username} left the room") now
              let msgs1 := pushMsg st.roomMessages oldRoomId leaveMsg
              ({ st with rooms := rooms2, roomMessages := msgs1 },
               [⟨.room oldRoomId none, leaveMsg⟩] ++ userListEmit rooms2 oldRoomId)
            | none => (st, [])
          else (st, [])
        | none => (st, [])
      let st1 := step1.1
      let client2 : Client :=
        { client with
            username := some username
            wallet := walletOrNull wallet
            currentRoom := some roomId }
      let participant : Participant := ⟨username, wallet, client.apiKey⟩
      let inserted := room.participants.filter (fun p => p.username ≠ username) ++ [participant]
      let room2 := { room with participants := inserted }
      let rooms3 := alSet st1.rooms roomId room2
      let replayEmits := ((alGet st1.roomMessages roomId).getD []).map
        (fun m => Emit.mk (.conn cid) m)
      let joinedMsg : SMessage :=
        .system (some roomId) (s!"{username} joined the room") now
      let st2 : ServerState :=
        { rooms := rooms3, clients := alSet st1.clients cid client2,
          roomMessages := pushMsg st1.roomMessages roomId joinedMsg,
          roomChatHistory := st1.roomChatHistory }
      (st2, step1.2 ++ replayEmits ++ [⟨.room roomId none, joinedMsg⟩]
        ++ userListEmit rooms3 roomId ++ [⟨.all, .roomList (roomListOf rooms3)⟩])

/-- `getPokerLedger(roomId)`: the formatted ledger text (buy-ins, cash-outs,
totals, balance verdict with the signed amount; emoji prefixes elided). -/
def getPokerLedger (rooms : Rooms) (roomId : String) : String :=
  match alGet rooms roomId with
  | none => "No poker session active."
  | some room =>
    match room.pokerSession with
    | none => "No poker session active."
    | some session =>
      let totalBuyIns := totalOf session.buyIns
      let totalCashOuts := totalOf session.cashOuts
      let buyLines := String.join (session.buyIns.map (fun bi =>
        let a := toString bi.amount
        s!"- {bi.player}: ${a}\n"))
      let cashLines :=
        if session.cashOuts.isEmpty then "- None yet\n"
        else String.join (session.cashOuts.map (fun co =>
          let a := toString co.amount
          s!"- {co.player}: ${a}\n"))
      let tb := toString totalBuyIns
      let tc := toString totalCashOuts
      let diff := totalBuyIns - totalCashOuts
      let verdict :=
        if diff = 0 then "**Balanced** - Ready to settle!"
        else if diff > 0 then
          let d := toString diff
          s!"**Unbalanced** - ${d} remaining in pot"
        else
          let d := toString (-diff)
          s!"**Over by ${d}** - Cash outs exceed buy-ins!"
      s!"**Poker Session Ledger**\n\n**Buy-ins:**\n{buyLines}Total: ${tb}\n\n**Cash Outs:**\n{cashLines}Total: ${tc}\n\n{verdict}"

/-- The payments appendix of a successful settle action
(`payments.map(p => ...).join('\n')`). -/
def renderPayments (ps : List Payment) : String :=
  String.intercalate "\n" (ps.map (fun p =>
    let t := Payment.to p
    let a := toString p.amount
    s!"- {t}: ${a}"))

/-- JS `\w`: ASCII letters, digits and underscore. -/
def isWordChar (c : Char) : Bool := c.isAlphanum || c = '_'

/-- One match of the action-directive pattern
`\[ACTION:\s*(\w+)\(([^)]+)\)\]`: the whitespace run, the `\w+` name and
the `[^)]+` argument text. -/
structure Directive where
  ws : List Char
  name : List Char
  args : List Char
deriving DecidableEq, Repr

/-- The literal `[ACTION:` opening of the pattern. -/
def actionTag : List Char :=
  ['[', 'A', 'C', 'T', 'I', 'O', 'N', ':']

/-- The full matched substring of a directive. -/
def Directive.full (d : Directive) : List Char :=
  actionTag ++ d.ws ++ d.name ++ ['('] ++ d.args ++ [')', ']']

/-- Attempts the directive pattern at the head of the text.  The pattern is
deterministic: `\s*` and `\w+` consume disjoint character classes and
`[^)]+` must stop at the first `)`, which must be followed by `]`.  Returns
the parsed directive and the remaining text after the match.  JS `\s` is
modelled by `Char.isWhitespace` (no claim exercises exotic whitespace). -/
def matchAt (cs : List Char) : Option (Directive × List Char) :=
  if actionTag.isPrefixOf cs then
    let t0 := cs.drop actionTag.length
    let ws := t0.takeWhile Char.isWhitespace
    let t1 := t0.dropWhile Char.isWhitespace
    let name := t1.takeWhile isWordChar
    if name.isEmpty then none
    else
      match t1.drop name.length with
      | '(' :: t3 =>
        let args := t3.takeWhile (fun c => c ≠ ')')
        if args.isEmpty then none
        else
          match t3.drop args.length with
          | ')' :: ']' :: rest => some (⟨ws, name, args⟩, rest)
          | _ => none
      | _ => none
  else none

/-- `text.matchAll(actionPattern)`: non-overlapping leftmost matches, the
search resuming after each match.  Fuelled by the text length (every step
consumes at least one character). -/
def scanFrom : Nat → List Char → List Directive
  | 0, _ => []
  | _, [] => []
  | fuel + 1, c :: t =>
    match matchAt (c :: t) with
    | some (d, rest) => d :: scanFrom fuel rest
    | none => scanFrom fuel t

/-- All directive matches of a text, in textual order. -/
def scanAll (cs : List Char) : List Directive :=
  scanFrom cs.length cs

/-- Literal first-occurrence splice.  This coincides with JS
`String.replace` exactly when the replacement contains no special
replacement pattern; it is used for the tool-name prefix stripping of the
progress text, whose replacement is the empty string.  The general
substitution of the action loop goes through `jsReplaceFirst` below, which
models the special patterns as well. -/
def replaceFirst (text target repl : List Char) : List Char :=
  if target.isPrefixOf text then repl ++ text.drop target.length
  else
    match text with
    | [] => []
    | c :: t => c :: replaceFirst t target repl

/-- ECMAScript `GetSubstitution` for a string search value (no capture
groups): `$$` yields a dollar, `$&` the matched substring, a dollar before
a backquote the part of the searched string before the match, a dollar
before a single quote the part after it.  `$n` has no capture to refer to
and stays literal, as does every other character (including a trailing
lone dollar).  The backquote and quote characters are written by code
point (96 and 39). -/
def getSubstitution (matched pre suf : List Char) : List Char → List Char
  | [] => []
  | [c] => [c]
  | a :: b :: rest =>
    if a = '$' ∧ b = '$' then '$' :: getSubstitution matched pre suf rest
    else if a = '$' ∧ b = '&' then matched ++ getSubstitution matched pre suf rest
    else if a = '$' ∧ b = Char.ofNat 96 then pre ++ getSubstitution matched pre suf rest
    else if a = '$' ∧ b = Char.ofNat 39 then suf ++ getSubstitution matched pre suf rest
    else a :: getSubstitution matched pre suf (b :: rest)

/-- Index of the first occurrence of `target` in `text` (JS `indexOf`). -/
def firstIndexOf (text target : List Char) : Option Nat :=
  if target.isPrefixOf text then some 0
  else
    match text with
    | [] => none
    | _ :: t => (firstIndexOf t target).map (fun i => i + 1)

/-- JS `String.replace` with a string pattern: replaces the first
occurrence only (the text is unchanged when the pattern does not occur),
with the replacement passed through `GetSubstitution` — the special
patterns are interpreted even for a string search value. -/
def jsReplaceFirst (text target repl : List Char) : List Char :=
  match firstIndexOf text target with
  | none => text
  | some i =>
    text.take i
      ++ getSubstitution target (text.take i) (text.drop (i + target.length)) repl
      ++ text.drop (i + target.length)

/-- No JS special replacement pattern: no dollar immediately followed by a
dollar, ampersand, backquote or single quote.  On such a replacement text
`GetSubstitution` is the identity. -/
def dollarSafe : List Char → Bool
  | [] => true
  | [_] => true
  | a :: b :: rest =>
    if a = '$' ∧ (b = '$' ∨ b = '&' ∨ b = Char.ofNat 96 ∨ b = Char.ofNat 39) then
      false
    else dollarSafe (b :: rest)

/-- `.trim()` on a character list. -/
def trimChars (s : List Char) : List Char :=
  ((s.dropWhile Char.isWhitespace).reverse.dropWhile Char.isWhitespace).reverse

/-- `.replace(/['"]/g, '')`: removes every single and double quote. -/
def stripQuotes (s : List Char) : List Char :=
  s.filter (fun c => c ≠ Char.ofNat 39 ∧ c ≠ Char.ofNat 34)

/-- `argsStr.split(',').map(a => a.trim().replace(/['"]/g, ''))`. -/
def parseArgs (args : List Char) : List (List Char) :=
  (args.splitOn ',').map (fun a => stripQuotes (trimChars a))

/-- JS `parseFloat`, restricted to the numerals the theorems exercise:
leading whitespace skipped, optional sign, then leading decimal digits.
Input without leading digits yields 0 (standing in for NaN, which no proved
statement reaches), and fractional tails are ignored (no claim involves
fractional amounts). -/
def jsParseFloat (s : List Char) : Int :=
  let t := s.dropWhile Char.isWhitespace
  let signed : Int × List Char :=
    match t with
    | '-' :: r => (-1, r)
    | '+' :: r => (1, r)
    | r => (1, r)
  signed.1 * (signed.2.takeWhile Char.isDigit).foldl
    (fun acc c => acc * 10 + ((c.toNat : Int) - 48)) 0

/-- The body of the action loop in the agent-response callback: dispatch on
the directive name (with the arity guards of the source), run the matching
ledger helper against the room, and produce the result text; unknown names
or wrong arities leave the result empty.  A successful settle appends the
payment lines and the closing sentence. -/
def executeAction (rooms : Rooms) (roomId : String) (d : Directive)
    (now : Int) : Rooms × List Char :=
  let args := parseArgs d.args
  if d.name = "recordBuyIn".toList then
    match args with
    | [a0, a1] =>
      let r := recordBuyIn rooms roomId (String.mk a0) (jsParseFloat a1) now
      (r.1, r.2.toList)
    | _ => (rooms, [])
  else if d.name = "recordCashOut".toList then
    match args with
    | [a0, a1] =>
      let r := recordCashOut rooms roomId (String.mk a0) (jsParseFloat a1) now
      (r.1, r.2.toList)
    | _ => (rooms, [])
  else if d.name = "getLedger".toList then
    (rooms, (getPokerLedger rooms roomId).toList)
  else if d.name = "settle".toList then
    match args with
    | [a0] =>
      let r := settlePokerSession rooms roomId (String.mk a0)
      match r.2 with
      | .settled tb tc payments =>
        let pay := renderPayments payments
        let msg := (SettleResult.settled tb tc payments).message
        (r.1, (msg ++ "\n\n" ++ pay ++ "\n\nUse Locus to send these payments.").toList)
      | other => (r.1, other.message.toList)
    | _ => (rooms, [])
  else (rooms, [])

/-- The agent-response callback's parse-and-substitute pass: collect every
directive match of the original text once, then execute them left to right,
replacing (in the evolving final text, with JS `String.replace` semantics,
special replacement patterns included) the first occurrence of each
directive's matched substring by its result text. -/
def applyActions (rooms : Rooms) (roomId : String) (text : List Char)
    (now : Int) : Rooms × List Char :=
  (scanAll text).foldl
    (fun acc d =>
      let r := executeAction acc.1 roomId d now
      (r.1, jsReplaceFirst acc.2 d.full r.2))
    (rooms, text)

/-- Reference semantics for a directive list: execute in order, threading
the rooms state, and collect each execution's literal result text. -/
def execResults (rooms : Rooms) (roomId : String) (now : Int) :
    List Directive → Rooms × List (List Char)
  | [] => (rooms, [])
  | d :: ds =>
    let r := executeAction rooms roomId d now
    let rest := execResults r.1 roomId now ds
    (rest.1, r.2 :: rest.2)

/-- A text assembled from an initial plain segment and a sequence of
directives each followed by a plain segment. -/
def assemble (s0 : List Char) : List (Directive × List Char) → List Char
  | [] => s0
  | (d, s) :: rest => s0 ++ Directive.full d ++ assemble s rest

/-- The same segments with each directive replaced by a result text. -/
def interleave (s0 : List Char) : List (List Char × List Char) → List Char
  | [] => s0
  | (r, s) :: rest => s0 ++ r ++ interleave s rest

/-- No opening bracket: such a segment can neither start nor hide a match. -/
def bracketFree (s : List Char) : Bool :=
  s.all (fun c => c ≠ '[')

/-- A syntactically well-formed directive: whatever `\s*` matched is
whitespace, the name is a non-empty word-character run, the arguments are a
non-empty run without `)` (by the regex) and without `[` (so a directive
cannot hide the start of another match). -/
def wfDirective (d : Directive) : Bool :=
  d.ws.all Char.isWhitespace && !d.name.isEmpty && d.name.all isWordChar
    && !d.args.isEmpty && d.args.all (fun c => c ≠ ')' && c ≠ '[')

/-- The progress-message text:
`Using ${tool.replace('mcp__locus__','').replace('mcp__sessionpay__','')}...`. -/
def progressText (tool : String) : String :=
  let t := String.mk (replaceFirst
    (replaceFirst tool.toList "mcp__locus__".toList [])
    "mcp__sessionpay__".toList [])
  s!"Using {t}..."

/-- One content block of an assistant stream message. -/
inductive ContentBlock where
  | text (s : String)
  | toolUse (name : String)
  | other
deriving DecidableEq, Repr

/-- The text of a `text` block. -/
def ContentBlock.textOf : ContentBlock → Option String
  | .text s => some s
  | _ => none

/-- The tool name of a `tool_use` block. -/
def ContentBlock.toolNameOf : ContentBlock → Option String
  | .toolUse n => some n
  | _ => none

/-- One message of the agent SDK stream consumed by
`LocusAgent.processMessage`. -/
inductive StreamMsg where
  | system
  | toolProgress (tool : String) (elapsed : Int)
  | assistant (content : List ContentBlock)
  | result (ok : Bool)
deriving DecidableEq, Repr

/-- The loop state of `processMessage`: the deduplicating `toolsUsed` list,
the collected response parts, and the `onProgress` calls made so far
(tool name, elapsed seconds), in order. -/
structure LoopState where
  toolsUsed : List String
  responseParts : List String
  progressCalls : List (String × Int)
deriving DecidableEq, Repr

/-- One iteration of the `for await` loop of `processMessage`.  On
`tool_progress` the progress callback fires FIRST, unconditionally, and only
the `toolsUsed` bookkeeping is deduplicated; on an `assistant` message the
non-empty trimmed text joins the response parts, and each `tool_use` block
fires the progress callback only when its tool is new. -/
def stepMsg (ls : LoopState) (m : StreamMsg) : LoopState :=
  match m with
  | .system => ls
  | .result _ => ls
  | .toolProgress tool elapsed =>
    let ls2 := { ls with progressCalls := ls.progressCalls ++ [(tool, elapsed)] }
    if tool ∈ ls2.toolsUsed then ls2
    else { ls2 with toolsUsed := ls2.toolsUsed ++ [tool] }
  | .assistant content =>
    let texts := content.filterMap ContentBlock.textOf
    let joined := String.intercalate "\n" texts
    let ls2 :=
      if texts.length > 0 ∧ joined.trim ≠ "" then
        { ls with responseParts := ls.responseParts ++ [joined] }
      else ls
    (content.filterMap ContentBlock.toolNameOf).foldl
      (fun acc name =>
        if name ∈ acc.toolsUsed then acc
        else
          { acc with
              toolsUsed := acc.toolsUsed ++ [name]
              progressCalls := acc.progressCalls ++ [(name, 0)] })
      ls2

/-- The whole stream loop of one invocation. -/
def runStream (stream : List StreamMsg) : LoopState :=
  stream.foldl stepMsg ⟨[], [], []⟩

/-- The final `onResponse` text: the joined parts, or the canned fallback
when the agent produced no text. -/
def responseOf (ls : LoopState) : String :=
  let t := String.intercalate "\n\n" ls.responseParts
  if t = "" then "I processed your request but have no specific response." else t

/-- How one external agent invocation goes: the query loop completes over a
stream (and the caller's action substitution either completes,
`substFailAfter = none`, or throws after `k` executed directives), or the
query loop itself throws after a processed prefix. -/
inductive AgentOutcome where
  | completes (stream : List StreamMsg) (substFailAfter : Option Nat)
  | fails (processed : List StreamMsg)
deriving DecidableEq, Repr

/-- The observable fate of one `processMessage` call. -/
inductive PMResult where
  | alreadyProcessing
  | completed (ls : LoopState)
  | queryThrew (ls : LoopState)
deriving DecidableEq, Repr

/-- `LocusAgent.processMessage`: when the busy flag is set it throws
`AlreadyProcessing` immediately — no stream is consumed and no callback
runs — leaving the (other invocation's) flag untouched; otherwise it runs
the stream loop, and the `finally` clears the flag on both the completion
and the query-error exits.  Returns the result and the flag afterwards. -/
def processMessage (busy : Bool) (outcome : AgentOutcome) : PMResult × Bool :=
  if busy then (.alreadyProcessing, busy)
  else
    match outcome with
    | .completes stream _ => (.completed (runStream stream), false)
    | .fails processed => (.queryThrew (runStream processed), false)

/-- The ledger effect of a substitution loop interrupted after `k`
directives. -/
def applyActionsPartial (rooms : Rooms) (roomId : String) (text : List Char)
    (now : Int) (k : Nat) : Rooms :=
  ((scanAll text).take k).foldl
    (fun acc d => (executeAction acc roomId d now).1) rooms

/-- The outcome of one agent block of the `chat` handler. -/
structure DispatchOut where
  rooms : Rooms
  roomMessages : List (String × List SMessage)
  emits : List SMessage
  busyAfter : Bool
  invocationStarted : Bool
deriving DecidableEq, Repr

/-- The agent block of the `chat` handler (everything after the `@locus`
trigger): broadcast `agent_typing{true}`, dispatch `processMessage`.  On
the busy rejection the `.catch` broadcasts `agent_typing{false}` and a
generic system error (no second invocation starts).  On a query error the
progress events already broadcast stay, then `.catch` does the same.  On
completion the response callback substitutes the action directives — if
that throws after `k` directives the partial ledger effects stand and the
rejection reaches `.catch`; otherwise `agent_typing{false}` and the final
agent message are broadcast.  All emitted messages target the room. -/
def agentDispatch (rooms : Rooms) (msgs : List (String × List SMessage))
    (roomId : String) (busy : Bool) (outcome : AgentOutcome) (now : Int) :
    DispatchOut :=
  let typingStart : SMessage := .agentTyping roomId true
  let typingEnd : SMessage := .agentTyping roomId false
  let errMsg : SMessage := .system (some roomId) "Locus agent encountered an error" now
  if busy then
    { rooms := rooms, roomMessages := pushMsg msgs roomId errMsg
      emits := [typingStart, typingEnd, errMsg]
      busyAfter := busy, invocationStarted := false }
  else
    match outcome with
    | .fails processed =>
      let ls := runStream processed
      let progressEmits := ls.progressCalls.map (fun pc =>
        SMessage.agentProgress roomId (progressText pc.1) pc.1 pc.2)
      let msgs2 := progressEmits.foldl (fun acc m => pushMsg acc roomId m) msgs
      { rooms := rooms, roomMessages := pushMsg msgs2 roomId errMsg
        emits := typingStart :: progressEmits ++ [typingEnd, errMsg]
        busyAfter := false, invocationStarted := true }
    | .completes stream substFail =>
      let ls := runStream stream
      let progressEmits := ls.progressCalls.map (fun pc =>
        SMessage.agentProgress roomId (progressText pc.1) pc.1 pc.2)
      let msgs2 := progressEmits.foldl (fun acc m => pushMsg acc roomId m) msgs
      let resp := responseOf ls
      match substFail with
      | some k =>
        { rooms := applyActionsPartial rooms roomId resp.toList now k
          roomMessages := pushMsg msgs2 roomId errMsg
          emits := typingStart :: progressEmits ++ [typingEnd, errMsg]
          busyAfter := false, invocationStarted := true }
      | none =>
        let r := applyActions rooms roomId resp.toList now
        let agentMsg : SMessage := .agent roomId (String.mk r.2) now ls.toolsUsed
        { rooms := r.1, roomMessages := pushMsg msgs2 roomId agentMsg
          emits := typingStart :: progressEmits ++ [typingEnd, agentMsg]
          busyAfter := false, invocationStarted := true }

/-- Recognizes an `agent_progress` emission for a given tool name. -/
def isProgressEmit (tool : String) : SMessage → Bool
  | .agentProgress _ _ t _ => t = tool
  | _ => false

/-- C9 counterexample stream: two `tool_progress` callbacks for the same
tool within one invocation. -/
def cexStreamC9 : List StreamMsg :=
  [.toolProgress "get_wallet_balance" 1, .toolProgress "get_wallet_balance" 2]

/-- Invariant tying progress emissions to the dedup list: the emitted tool
names are pairwise distinct and all recorded in `toolsUsed`. -/
def progressInv (ls : LoopState) : Prop :=
  (ls.progressCalls.map Prod.fst).Nodup
  ∧ ∀ n ∈ ls.progressCalls.map Prod.fst, n ∈ ls.toolsUsed

/-- Connection fixture: a client currently in room "A" under the name
"alice". -/
def cexClient0 : Client :=
  { apiKey := .main, currentRoom := some "A", username := some "alice",
    wallet := none }

/-- Room fixture "A" containing the participant record of `cexClient0`. -/
def roomA : RoomState :=
  { roomId := "A", roomName := "Room A", mode := .casual,
    participants := [⟨"alice", none, .main⟩], contacts := [],
    pokerSession := none }

/-- Room fixture "B", empty. -/
def roomB : RoomState :=
  { roomId := "B", roomName := "Room B", mode := .casual, participants := [],
    contacts := [], pokerSession := none }

/-- Server fixture for the join-room claims: rooms "A" and "B", one
connection (id 0) sitting in "A" as "alice". -/
def cexStJoin : ServerState :=
  { rooms := [("A", roomA), ("B", roomB)]
    clients := [(0, cexClient0)]
    roomMessages := [("A", []), ("B", [])]
    roomChatHistory := [("A", []), ("B", [])] }

/-- The `connect` handler: records the caller identity and replies with the
room list. -/
def connectHandler (st : ServerState) (cid : Nat) (key : ApiKey) :
    ServerState × List Emit :=
  match alGet st.clients cid with
  | none => (st, [])
  | some client =>
    ({ st with clients := alSet st.clients cid { client with apiKey := key } },
     [⟨.conn cid, .roomList (roomListOf st.rooms)⟩])

/-- The `create_room` handler: a fresh `RoomState` with empty participants,
contacts and logs is installed under the (random) id, the room list goes to
every connection and the creator receives a system reply with the id. -/
def createRoomHandler (st : ServerState) (cid : Nat) (roomName : String)
    (mode : RoomMode) (newRoomId : String) (now : Int) :
    ServerState × List Emit :=
  let newRoom : RoomState :=
    { roomId := newRoomId, roomName := roomName, mode := mode,
      participants := [], contacts := [], pokerSession := none }
  let st2 : ServerState :=
    { rooms := alSet st.rooms newRoomId newRoom, clients := st.clients,
      roomMessages := alSet st.roomMessages newRoomId [],
      roomChatHistory := alSet st.roomChatHistory newRoomId [] }
  (st2, [⟨.all, .roomList (roomListOf st2.rooms)⟩,
    ⟨.conn cid, .system (some newRoomId)
      (s!"Room created: {roomName} with id {newRoomId}") now⟩])

/-- The synchronous part of the `chat` handler: guard on username and room,
append to the bounded chat window and the replay log, broadcast to the room.
The agent block it may trigger is asynchronous and modelled separately. -/
def chatHandler (st : ServerState) (cid : Nat) (text : String) (now : Int) :
    ServerState × List Emit :=
  match alGet st.clients cid with
  | none => (st, [])
  | some client =>
    match client.username, client.currentRoom with
    | some username, some roomId =>
      match alGet st.rooms roomId with
      | none => (st, [])
      | some _ =>
        let cm : ChatRecord := ⟨roomId, text, username, now⟩
        let hist2 := pushChat st.roomChatHistory roomId cm
        let msgs2 := pushMsg st.roomMessages roomId (.chat cm)
        ({ st with roomChatHistory := hist2, roomMessages := msgs2 },
         [⟨.room roomId none, .chat cm⟩])
    | _, _ => (st, [])

/-- The socket `close` handler: the connection is dropped; when it had a
username and room, the participant entries bearing that username are removed,
a departure system message is pushed and broadcast, and the user and room
lists are refreshed. -/
def closeHandler (st : ServerState) (cid : Nat) (now : Int) :
    ServerState × List Emit :=
  match alGet st.clients cid with
  | none => (st, [])
  | some client =>
    let clients2 := alDel st.clients cid
    match client.username, client.currentRoom with
    | some username, some roomId =>
      match alGet st.rooms roomId with
      | none => ({ st with clients := clients2 }, [])
      | some room =>
        let remaining := room.participants.filter (fun p => p.username ≠ username)
        let room2 := { room with participants := remaining }
        let rooms2 := alSet st.rooms roomId room2
        let leaveMsg : SMessage :=
          .system (some roomId) (s!"{username} left the room") now
        ({ rooms := rooms2, clients := clients2,
           roomMessages := pushMsg st.roomMessages roomId leaveMsg,
           roomChatHistory := st.roomChatHistory },
         [⟨.room roomId none, leaveMsg⟩] ++ userListEmit rooms2 roomId
           ++ [⟨.all, .roomList (roomListOf rooms2)⟩])
    | _, _ => ({ st with clients := clients2 }, [])

/-- Witness directive: `[ACTION: recordBuyIn(bob, 25)]`. -/
def wdirBuyIn : Directive :=
  { ws := [' '], name := "recordBuyIn".toList, args := "bob, 25".toList }

/-- Witness directive: `[ACTION: getLedger(now)]`. -/
def wdirLedger : Directive :=
  { ws := [' '], name := "getLedger".toList, args := "now".toList }

/-- Witness segment list: two directives separated by plain text. -/
def wsegs : List (Directive × List Char) :=
  [(wdirBuyIn, " and ".toList), (wdirLedger, "!".toList)]

/-- C8 counterexample directive: `[ACTION: recordBuyIn($&, 5)]` — a
well-formed directive whose argument text smuggles the `$&` replacement
pattern into the execution result. -/
def cexDirDollar : Directive :=
  { ws := [' '], name := "recordBuyIn".toList, args := "$&, 5".toList }

/-- Every state-touching operation of the room server: the four wire-message
handlers, the socket close, the three poker helpers the agent can call, and
the three agent callbacks that re-enter the event loop (progress, response
with action substitution, error). -/
inductive Op where
  | connect (cid : Nat) (key : ApiKey)
  | createRoom (cid : Nat) (roomName : String) (mode : RoomMode)
      (newRoomId : String) (now : Int)
  | joinRoom (cid : Nat) (roomId username : String) (wallet : Option String)
      (now : Int)
  | chatMsg (cid : Nat) (text : String) (now : Int)
  | closeConn (cid : Nat) (now : Int)
  | ledgerBuyIn (roomId player : String) (amount : Int) (now : Int)
  | ledgerCashOut (roomId player : String) (amount : Int) (now : Int)
  | ledgerSettle (roomId player : String)
  | agentProgressEv (roomId tool : String) (elapsed : Int)
  | agentResponseEv (roomId respText : String) (tools : List String) (now : Int)
  | agentErrorEv (roomId : String) (now : Int)
deriving DecidableEq, Repr

/-- The single-event-loop step function: one operation, the successor state
and the emissions. -/
def step (st : ServerState) : Op → ServerState × List Emit
  | .connect cid key => connectHandler st cid key
  | .createRoom cid name mode nid now => createRoomHandler st cid name mode nid now
  | .joinRoom cid rid u w now => joinRoomHandler st cid rid u w now
  | .chatMsg cid text now => chatHandler st cid text now
  | .closeConn cid now => closeHandler st cid now
  | .ledgerBuyIn rid p a now =>
    ({ st with rooms := (recordBuyIn st.rooms rid p a now).1 }, [])
  | .ledgerCashOut rid p a now =>
    ({ st with rooms := (recordCashOut st.rooms rid p a now).1 }, [])
  | .ledgerSettle rid p =>
    ({ st with rooms := (settlePokerSession st.rooms rid p).1 }, [])
  | .agentProgressEv rid tool elapsed =>
    let m : SMessage := .agentProgress rid (progressText tool) tool elapsed
    ({ st with roomMessages := pushMsg st.roomMessages rid m },
     [⟨.room rid none, m⟩])
  | .agentResponseEv rid respText tools now =>
    let r := applyActions st.rooms rid respText.toList now
    let m : SMessage := .agent rid (String.mk r.2) now tools
    ({ st with rooms := r.1, roomMessages := pushMsg st.roomMessages rid m },
     [⟨.room rid none, .agentTyping rid false⟩, ⟨.room rid none, m⟩])
  | .agentErrorEv rid now =>
    let m : SMessage := .system (some rid) "Locus agent encountered an error" now
    ({ st with roomMessages := pushMsg st.roomMessages rid m },
     [⟨.room rid none, .agentTyping rid false⟩, ⟨.room rid none, m⟩])

/-- The spec's collision-freedom assumption on generated room ids
(`randomBytes(8)`, at least 64 bits of entropy): a created room's id is not
already a key of the replay-log map. -/
def opFresh (st : ServerState) : Op → Prop
  | .createRoom _ _ _ nid _ => alGet st.roomMessages nid = none
  | _ => True


end Locus

namespace Locus

/-- alGet after alSet at the same key yields the new value. -/
theorem alGet_alSet_self {κ α : Type} [DecidableEq κ] (l : List (κ × α)) (k : κ) (v : α) :
    alGet (alSet l k v) k = some v := by
  induction l with
  | nil => simp [alGet, alSet, List.find?]
  | cons hd tl ih =>
    obtain ⟨k1, v1⟩ := hd
    by_cases hk : k1 = k
    · simp [alGet, alSet, hk, List.find?]
    · simpa [alGet, alSet, hk, List.find?] using ih

/-- alGet after alSet at a different key is unchanged. -/
theorem alGet_alSet_ne {κ α : Type} [DecidableEq κ] (l : List (κ × α)) (k k' : κ) (v : α)
    (h : k' ≠ k) : alGet (alSet l k v) k' = alGet l k' := by
  induction l with
  | nil =>
    have hkk : ¬ k = k' := fun hc => h hc.symm
    simp [alGet, alSet, List.find?, hkk]
  | cons hd tl ih =>
    obtain ⟨k1, v1⟩ := hd
    by_cases hk : k1 = k
    · have hk' : ¬ k1 = k' := fun hc => h (hc ▸ hk ▸ rfl)
      have hkk : ¬ k = k' := fun hc => h hc.symm
      simp [alGet, alSet, hk, hk', hkk, List.find?]
    · by_cases hk2 : k1 = k'
      · simp [alGet, alSet, hk, hk2, List.find?, h]
      · simpa [alGet, alSet, hk, hk2, List.find?] using ih

/-- C1: for every room with an active poker session, `settle(requestingPlayer)`
succeeds iff the requester is the session host and total buy-ins equal total
cash-outs; when it fails with the unbalanced result, the reported difference
is exactly `sum(buy-ins) - sum(cash-outs)`. -/
theorem settle_success_iff (rooms : Rooms) (roomId p : String) (room : RoomState)
    (session : PokerSession)
    (hroom : alGet rooms roomId = some room)
    (hsess : room.pokerSession = some session) :
    ((((settlePokerSession rooms roomId p).2).success = true) ↔
      (p = session.host ∧ totalOf session.buyIns = totalOf session.cashOuts))
    ∧ (∀ tb tc d, (settlePokerSession rooms roomId p).2 =
        SettleResult.unbalanced tb tc d →
        d = totalOf session.buyIns - totalOf session.cashOuts) := by
  by_cases hh : session.host = p
  · by_cases hb : totalOf session.buyIns = totalOf session.cashOuts
    · have hval : (settlePokerSession rooms roomId p).2 =
          SettleResult.settled (totalOf session.buyIns) (totalOf session.cashOuts)
            (session.cashOuts.map (fun co =>
              { «to» := walletOr
                  ((room.participants.find? (fun q => q.username = co.player)).bind
                    (fun q => q.wallet)) co.player,
                amount := co.amount })) := by
        simp [settlePokerSession, hroom, hsess, hh, hb]
      refine ⟨?_, ?_⟩
      · rw [hval]
        simp [SettleResult.success, hh, hb]
      · intro tb tc d hd
        rw [hval] at hd
        exact absurd hd (by simp)
    · have hval : (settlePokerSession rooms roomId p).2 =
          SettleResult.unbalanced (totalOf session.buyIns) (totalOf session.cashOuts)
            (totalOf session.buyIns - totalOf session.cashOuts) := by
        simp [settlePokerSession, hroom, hsess, hh, hb]
      refine ⟨?_, ?_⟩
      · rw [hval]
        constructor
        · intro hc
          simp [SettleResult.success] at hc
        · intro hc
          exact absurd hc.2 hb
      · intro tb tc d hd
        rw [hval] at hd
        simp only [SettleResult.unbalanced.injEq] at hd
        exact hd.2.2.symm
  · have hval : (settlePokerSession rooms roomId p).2 =
        SettleResult.notHost session.host := by
      simp [settlePokerSession, hroom, hsess, hh]
    refine ⟨?_, ?_⟩
    · rw [hval]
      constructor
      · intro hc
        simp [SettleResult.success] at hc
      · intro hc
        exact absurd hc.1.symm hh
    · intro tb tc d hd
      rw [hval] at hd
      exact absurd hd (by simp)

/-- C1 witness: a concrete balanced session settled by its host, and a
concrete unbalanced session reporting the exact difference. -/
theorem settle_success_iff_witness :
    alGet cexRoomsC2 "r" = some cexRoomC2
    ∧ cexRoomC2.pokerSession = some cexSessionC2
    ∧ ((((settlePokerSession cexRoomsC2 "r" "alice").2).success = true) ↔
        ("alice" = cexSessionC2.host
          ∧ totalOf cexSessionC2.buyIns = totalOf cexSessionC2.cashOuts)) := by
  refine ⟨by decide, by decide, ?_⟩
  exact (settle_success_iff cexRoomsC2 "r" "alice" cexRoomC2 cexSessionC2
    (by decide) (by decide)).1

/-- C2 counterexample: a settle succeeds while the contact book (but no
participant record) holds a wallet for the cash-out player "bob"; the payment
is addressed to the raw name "bob", not to the known contact wallet "0xB",
so the contact book is not consulted. -/
theorem settle_payee_contacts_cex :
    ((settlePokerSession cexRoomsC2 "r" "alice").2 =
      SettleResult.settled 50 50 [{ «to» := "bob", amount := 50 }])
    ∧ alGet cexRoomC2.contacts "bob" = some "0xB"
    ∧ ("bob" : String) ≠ "0xB" := by
  refine ⟨by decide, by decide, by decide⟩

/-- C2 amended: on success the result holds one payment per cash-out entry in
cash-out order, each with that entry's amount, with the payee resolved from
the room's participant records only (the participant's wallet when present
and non-empty, otherwise the raw player name); the contact book is never
consulted. -/
theorem settle_payments_amended (rooms : Rooms) (roomId p : String)
    (room : RoomState) (session : PokerSession)
    (hroom : alGet rooms roomId = some room)
    (hsess : room.pokerSession = some session)
    (hhost : session.host = p)
    (hbal : totalOf session.buyIns = totalOf session.cashOuts) :
    (settlePokerSession rooms roomId p).2 =
      SettleResult.settled (totalOf session.buyIns) (totalOf session.cashOuts)
        (session.cashOuts.map (fun co =>
          { «to» := resolvePayee room.participants co.player,
            amount := co.amount })) := by
  unfold settlePokerSession resolvePayee
  simp only [hroom, hsess]
  simp [hhost, hbal]

/-- C2 amended witness: the counterexample room settles with the payee
resolved from participants only. -/
theorem settle_payments_amended_witness :
    (settlePokerSession cexRoomsC2 "r" "alice").2 =
      SettleResult.settled (totalOf [⟨"alice", 50, 0⟩])
        (totalOf ([⟨"bob", 50, 1⟩] : List LedgerEntry))
        (([⟨"bob", 50, 1⟩] : List LedgerEntry).map (fun co =>
          { «to» := resolvePayee cexRoomC2.participants co.player,
            amount := co.amount })) := by
  exact settle_payments_amended cexRoomsC2 "r" "alice" cexRoomC2 cexSessionC2
    (by decide) (by decide) (by decide) (by decide)

/-- C10: `settlePokerSession` never mutates server state: the rooms map
(hence every room's participants, contacts, and poker session) is returned
unchanged on every branch — success, not-host, unbalanced, and
no-active-session alike. -/
theorem settle_frame (rooms : Rooms) (roomId p : String) :
    (settlePokerSession rooms roomId p).1 = rooms
    ∧ ∀ rid, alGet (settlePokerSession rooms roomId p).1 rid = alGet rooms rid := by
  have h : (settlePokerSession rooms roomId p).1 = rooms := by
    cases halGet : alGet rooms roomId with
    | none => simp [settlePokerSession, halGet]
    | some room =>
      cases hps : room.pokerSession with
      | none => simp [settlePokerSession, halGet, hps]
      | some session =>
        by_cases hh : session.host = p
        · by_cases hb : totalOf session.buyIns = totalOf session.cashOuts
          · simp [settlePokerSession, halGet, hps, hh, hb]
          · simp [settlePokerSession, halGet, hps, hh, hb]
        · simp [settlePokerSession, halGet, hps, hh]
  exact ⟨h, fun rid => by rw [h]⟩

/-- Filtering for a username after filtering it away yields nothing. -/
theorem filter_username_not_self (ps : List Participant) (u : String) :
    (ps.filter (fun p => p.username ≠ u)).filter (fun p => p.username = u) = [] := by
  induction ps with
  | nil => rfl
  | cons a t ih =>
    by_cases h : a.username = u
    · simp [List.filter, h, ih]
    · simp [List.filter, h, ih]

/-- After the remove-then-push insertion of `join_room`, the entries bearing
the inserted username are exactly the single new record. -/
theorem filter_username_insert (ps : List Participant) (u : String)
    (part : Participant) (hp : part.username = u) :
    ((ps.filter (fun p => p.username ≠ u)) ++ [part]).filter
      (fun p => p.username = u) = [part] := by
  rw [List.filter_append, filter_username_not_self]
  simp [List.filter, hp]

/-- C5: after any `join_room` request (same-room rejoin included), the target
room's participant set contains exactly one entry bearing the requested
username, and that entry is the freshly built Participant record (requested
username and wallet, the connection's identity tag) — a re-join replaces the
prior record. -/
theorem join_unique_username (st : ServerState) (cid : Nat)
    (roomId username : String) (wallet : Option String) (now : Int)
    (client : Client) (room : RoomState)
    (hclient : alGet st.clients cid = some client)
    (hroom : alGet st.rooms roomId = some room) :
    ∃ room2 : RoomState,
      alGet (joinRoomHandler st cid roomId username wallet now).1.rooms roomId
        = some room2
      ∧ room2.participants.filter (fun p => p.username = username)
          = [⟨username, wallet, client.apiKey⟩]
      ∧ room2.participants.countP (fun p => p.username = username) = 1 := by
  unfold joinRoomHandler
  simp only [hclient, hroom]
  refine ⟨_, alGet_alSet_self _ _ _, ?_, ?_⟩
  · exact filter_username_insert room.participants username _ rfl
  · rw [List.countP_eq_length_filter,
      filter_username_insert room.participants username _ rfl]
    rfl

/-- C5 witness: the fixture connection rejoins room "B" as "bob"; room "B"
ends with exactly the one record for "bob". -/
theorem join_unique_username_witness :
    ∃ room2 : RoomState,
      alGet (joinRoomHandler cexStJoin 0 "B" "bob" none 5).1.rooms "B"
        = some room2
      ∧ room2.participants.filter (fun p => p.username = "bob")
          = [⟨"bob", none, cexClient0.apiKey⟩]
      ∧ room2.participants.countP (fun p => p.username = "bob") = 1 :=
  join_unique_username cexStJoin 0 "B" "bob" none 5 cexClient0 roomB
    (by decide) (by decide)

/-- C7 counterexample: connection 0 sits in room "A" as "alice" and issues
`join_room("B", "bob")`.  The connection does move to "B", but its prior
participant record "alice" is NOT removed from room "A" (the handler filters
the old room by the requested username "bob"), refuting the claim that the
connection is removed from the old room's participant set on every such
request. -/
theorem join_old_room_not_removed_cex :
    alGet (joinRoomHandler cexStJoin 0 "B" "bob" none 5).1.rooms "A"
      = some roomA
    ∧ roomA.participants = [⟨"alice", none, .main⟩]
    ∧ (alGet (joinRoomHandler cexStJoin 0 "B" "bob" none 5).1.clients 0).map
        (fun c => c.currentRoom) = some (some "B") := by
  refine ⟨by decide, by decide, by decide⟩

/-- C7 amended: on a `join_room` from a connection currently in a different
room, the participants bearing the REQUESTED username are first removed from
the old room and a departure system event for the old room is emitted before
the arrival (participant insertion and joined event) takes effect in the new
room; the connection's own prior record is removed exactly when it bears the
requested username. -/
theorem join_switch_rooms_amended (st : ServerState) (cid : Nat)
    (roomId username : String) (wallet : Option String) (now : Int)
    (client : Client) (room : RoomState) (oldRoomId : String)
    (oldRoom : RoomState)
    (hclient : alGet st.clients cid = some client)
    (hroom : alGet st.rooms roomId = some room)
    (hold : client.currentRoom = some oldRoomId)
    (hne : oldRoomId ≠ roomId)
    (holdRoom : alGet st.rooms oldRoomId = some oldRoom) :
    alGet (joinRoomHandler st cid roomId username wallet now).1.rooms oldRoomId
      = some { oldRoom with participants :=
          oldRoom.participants.filter (fun p => p.username ≠ username) }
    ∧ alGet (joinRoomHandler st cid roomId username wallet now).1.rooms roomId
      = some { room with participants :=
          room.participants.filter (fun p => p.username ≠ username)
            ++ [⟨username, wallet, client.apiKey⟩] }
    ∧ (joinRoomHandler st cid roomId username wallet now).2.head?
        = some (Emit.mk (.room oldRoomId none)
            (.system (some oldRoomId) (s!"{username} left the room") now))
    ∧ Emit.mk (.room roomId none)
          (.system (some roomId) (s!"{username} joined the room") now)
        ∈ (joinRoomHandler st cid roomId username wallet now).2 := by
  unfold joinRoomHandler
  simp only [hclient, hroom, hold, hne, ne_eq, not_false_eq_true, if_true,
    holdRoom]
  refine ⟨?_, alGet_alSet_self _ _ _, ?_, ?_⟩
  · rw [alGet_alSet_ne _ _ _ _ hne, alGet_alSet_self]
  · simp
  · simp

/-- C7 amended witness: the fixture connection switches from "A" to "B"
under the name "alice"; its record is removed from "A", the departure event
precedes the joined event, and "B" gains the record. -/
theorem join_switch_rooms_amended_witness :
    alGet (joinRoomHandler cexStJoin 0 "B" "alice" none 5).1.rooms "A"
      = some { roomA with participants :=
          roomA.participants.filter (fun p => p.username ≠ "alice") }
    ∧ alGet (joinRoomHandler cexStJoin 0 "B" "alice" none 5).1.rooms "B"
      = some { roomB with participants :=
          roomB.participants.filter (fun p => p.username ≠ "alice")
            ++ [⟨"alice", none, cexClient0.apiKey⟩] }
    ∧ (joinRoomHandler cexStJoin 0 "B" "alice" none 5).2.head?
        = some (Emit.mk (.room "A" none)
            (.system (some "A") (s!"alice left the room") 5))
    ∧ Emit.mk (.room "B" none)
          (.system (some "B") (s!"alice joined the room") 5)
        ∈ (joinRoomHandler cexStJoin 0 "B" "alice" none 5).2 :=
  join_switch_rooms_amended cexStJoin 0 "B" "alice" none 5 cexClient0 roomB
    "A" roomA (by decide) (by decide) (by decide) (by decide) (by decide)

/-- A found value in an association list is one of the stored values. -/
theorem alGet_getD_len_le {α : Type} (l : List (String × List α)) (n : Nat)
    (h : ∀ p ∈ l, p.2.length ≤ n) :
    ∀ rid, ((alGet l rid).getD []).length ≤ n := by
  intro rid
  unfold alGet
  cases hf : l.find? (fun p => p.1 = rid) with
  | none => simp
  | some p =>
    have hm := List.mem_of_find?_eq_some hf
    simpa using h p hm

/-- `pushMsg` never shortens any room's replay log. -/
theorem len_pushMsg_ge (l : List (String × List SMessage)) (rid : String)
    (m : SMessage) (rid' : String) :
    ((alGet l rid').getD []).length ≤ ((alGet (pushMsg l rid m) rid').getD []).length := by
  unfold pushMsg
  cases h : alGet l rid with
  | none => exact le_refl _
  | some ms =>
    by_cases he : rid' = rid
    · subst he
      rw [alGet_alSet_self, h]
      simp
    · rw [alGet_alSet_ne _ _ _ _ he]

/-- `pushChat` preserves the 50-entry bound of every chat window. -/
theorem pushChat_bound (l : List (String × List ChatRecord)) (rid : String)
    (m : ChatRecord) (hb : ∀ r, ((alGet l r).getD []).length ≤ 50) :
    ∀ r, ((alGet (pushChat l rid m) r).getD []).length ≤ 50 := by
  intro r
  unfold pushChat
  by_cases he : r = rid
  · subst he
    rw [alGet_alSet_self]
    have h0 := hb r
    by_cases hlen : ((alGet l r).getD [] ++ [m]).length > 50
    · simp only [hlen, if_true, Option.getD_some]
      have : ((alGet l r).getD [] ++ [m]).tail.length
          = ((alGet l r).getD [] ++ [m]).length - 1 := List.length_tail _
      simp only [this, List.length_append, List.length_singleton]
      omega
    · simp only [hlen, if_false, Option.getD_some]
      simp only [not_lt] at hlen
      simpa using hlen
  · rw [alGet_alSet_ne _ _ _ _ he]
    exact hb r

/-- Installing an empty log under a key keeps every window within bound. -/
theorem alSet_nil_bound {α : Type} (l : List (String × List α)) (nid : String)
    (hb : ∀ r, ((alGet l r).getD []).length ≤ 50) :
    ∀ r, ((alGet (alSet l nid ([] : List α)) r).getD []).length ≤ 50 := by
  intro r
  by_cases he : r = nid
  · subst he
    rw [alGet_alSet_self]
    simp
  · rw [alGet_alSet_ne _ _ _ _ he]
    exact hb r

/-- Installing an empty log under a FRESH key never shortens a log. -/
theorem alSet_nil_fresh_ge {α : Type} (l : List (String × List α)) (nid : String)
    (hfresh : alGet l nid = none) (r : String) :
    ((alGet l r).getD []).length ≤ ((alGet (alSet l nid ([] : List α)) r).getD []).length := by
  by_cases he : r = nid
  · subst he
    rw [hfresh]
    simp
  · rw [alGet_alSet_ne _ _ _ _ he]

/-- C6: across every operation of the server (message handlers, socket
close, ledger helpers and agent callbacks), each room's bounded chat window
stays at 50 entries or fewer, and no room's unbounded replay log ever
shrinks.  The only hypothesis besides the window invariant itself is the
spec's collision-freedom of freshly generated room ids. -/
theorem chat_window_bounded_log_monotone (st : ServerState) (op : Op)
    (hb : ∀ rid, ((alGet st.roomChatHistory rid).getD []).length ≤ 50)
    (hf : opFresh st op) :
    (∀ rid, ((alGet (step st op).1.roomChatHistory rid).getD []).length ≤ 50)
    ∧ (∀ rid, ((alGet st.roomMessages rid).getD []).length
        ≤ ((alGet (step st op).1.roomMessages rid).getD []).length) := by
  cases op with
  | connect cid key =>
    cases hc : alGet st.clients cid with
    | none => exact ⟨by simp [step, connectHandler, hc, hb], by simp [step, connectHandler, hc]⟩
    | some client =>
      exact ⟨by simp [step, connectHandler, hc, hb], by simp [step, connectHandler, hc]⟩
  | createRoom cid name mode nid now =>
    refine ⟨?_, ?_⟩
    · intro rid
      simp only [step, createRoomHandler]
      exact alSet_nil_bound st.roomChatHistory nid hb rid
    · intro rid
      simp only [step, createRoomHandler]
      exact alSet_nil_fresh_ge st.roomMessages nid hf rid
  | joinRoom cid rid u w now =>
    cases hc : alGet st.clients cid with
    | none => exact ⟨by simp [step, joinRoomHandler, hc, hb], by simp [step, joinRoomHandler, hc]⟩
    | some client =>
      cases hr : alGet st.rooms rid with
      | none => exact ⟨by simp [step, joinRoomHandler, hc, hr, hb], by simp [step, joinRoomHandler, hc, hr]⟩
      | some room =>
        cases hcr : client.currentRoom with
        | none =>
          refine ⟨?_, ?_⟩
          · intro r
            simp only [step, joinRoomHandler, hc, hr, hcr]
            exact hb r
          · intro r
            simp only [step, joinRoomHandler, hc, hr, hcr]
            exact len_pushMsg_ge _ _ _ _
        | some oldId =>
          by_cases ho : oldId = rid
          · refine ⟨?_, ?_⟩
            · intro r
              simp only [step, joinRoomHandler, hc, hr, hcr, ho]
              simp only [ne_eq, not_true_eq_false, if_false]
              exact hb r
            · intro r
              simp only [step, joinRoomHandler, hc, hr, hcr, ho]
              simp only [ne_eq, not_true_eq_false, if_false]
              exact len_pushMsg_ge _ _ _ _
          · cases hor : alGet st.rooms oldId with
            | none =>
              refine ⟨?_, ?_⟩
              · intro r
                simp only [step, joinRoomHandler, hc, hr, hcr, ho, hor, ne_eq,
                  not_false_eq_true, if_true]
                exact hb r
              · intro r
                simp only [step, joinRoomHandler, hc, hr, hcr, ho, hor, ne_eq,
                  not_false_eq_true, if_true]
                exact len_pushMsg_ge _ _ _ _
            | some oldRoom =>
              refine ⟨?_, ?_⟩
              · intro r
                simp only [step, joinRoomHandler, hc, hr, hcr, ho, hor, ne_eq,
                  not_false_eq_true, if_true]
                exact hb r
              · intro r
                simp only [step, joinRoomHandler, hc, hr, hcr, ho, hor, ne_eq,
                  not_false_eq_true, if_true]
                exact le_trans (len_pushMsg_ge _ _ _ _) (len_pushMsg_ge _ _ _ _)
  | chatMsg cid text now =>
    cases hc : alGet st.clients cid with
    | none => exact ⟨by simp [step, chatHandler, hc, hb], by simp [step, chatHandler, hc]⟩
    | some client =>
      cases hu : client.username with
      | none => exact ⟨by simp [step, chatHandler, hc, hu, hb], by simp [step, chatHandler, hc, hu]⟩
      | some username =>
        cases hcr : client.currentRoom with
        | none => exact ⟨by simp [step, chatHandler, hc, hu, hcr, hb], by simp [step, chatHandler, hc, hu, hcr]⟩
        | some rid =>
          cases hr : alGet st.rooms rid with
          | none => exact ⟨by simp [step, chatHandler, hc, hu, hcr, hr, hb], by simp [step, chatHandler, hc, hu, hcr, hr]⟩
          | some room =>
            refine ⟨?_, ?_⟩
            · intro r
              simp only [step, chatHandler, hc, hu, hcr, hr]
              exact pushChat_bound st.roomChatHistory rid _ hb r
            · intro r
              simp only [step, chatHandler, hc, hu, hcr, hr]
              exact len_pushMsg_ge _ _ _ _
  | closeConn cid now =>
    cases hc : alGet st.clients cid with
    | none => exact ⟨by simp [step, closeHandler, hc, hb], by simp [step, closeHandler, hc]⟩
    | some client =>
      cases hu : client.username with
      | none => exact ⟨by simp [step, closeHandler, hc, hu, hb], by simp [step, closeHandler, hc, hu]⟩
      | some username =>
        cases hcr : client.currentRoom with
        | none => exact ⟨by simp [step, closeHandler, hc, hu, hcr, hb], by simp [step, closeHandler, hc, hu, hcr]⟩
        | some rid =>
          cases hr : alGet st.rooms rid with
          | none => exact ⟨by simp [step, closeHandler, hc, hu, hcr, hr, hb], by simp [step, closeHandler, hc, hu, hcr, hr]⟩
          | some room =>
            refine ⟨?_, ?_⟩
            · intro r
              simp only [step, closeHandler, hc, hu, hcr, hr]
              exact hb r
            · intro r
              simp only [step, closeHandler, hc, hu, hcr, hr]
              exact len_pushMsg_ge _ _ _ _
  | ledgerBuyIn rid p a now => exact ⟨hb, fun r => le_refl _⟩
  | ledgerCashOut rid p a now => exact ⟨hb, fun r => le_refl _⟩
  | ledgerSettle rid p => exact ⟨hb, fun r => le_refl _⟩
  | agentProgressEv rid tool elapsed =>
    exact ⟨hb, fun r => len_pushMsg_ge _ _ _ _⟩
  | agentResponseEv rid respText tools now =>
    exact ⟨hb, fun r => len_pushMsg_ge _ _ _ _⟩
  | agentErrorEv rid now =>
    exact ⟨hb, fun r => len_pushMsg_ge _ _ _ _⟩

/-- C6 witness: a concrete chat append on the join fixture. -/
theorem chat_window_bounded_log_monotone_witness :
    (∀ rid, ((alGet (step cexStJoin (Op.chatMsg 0 "hello" 7)).1.roomChatHistory
        rid).getD []).length ≤ 50)
    ∧ (∀ rid, ((alGet cexStJoin.roomMessages rid).getD []).length
        ≤ ((alGet (step cexStJoin (Op.chatMsg 0 "hello" 7)).1.roomMessages
            rid).getD []).length) :=
  chat_window_bounded_log_monotone cexStJoin (Op.chatMsg 0 "hello" 7)
    (alGet_getD_len_le cexStJoin.roomChatHistory 50 (by decide)) trivial

/-- A word character is not whitespace. -/
theorem word_not_space (c : Char) (h : isWordChar c = true) :
    c.isWhitespace = false := by
  by_contra hws
  simp only [Bool.not_eq_false] at hws
  have h4 := hws
  simp only [Char.isWhitespace, Bool.or_eq_true, decide_eq_true_eq] at h4
  rcases h4 with ((h1 | h1) | h1) | h1 <;> subst h1 <;> exact absurd h (by decide)

/-- takeWhile over a satisfying run stops exactly at the first failing char. -/
theorem takeWhile_append_stop (p : Char → Bool) (a : List Char) (c : Char)
    (t : List Char) (ha : a.all p = true) (hc : p c = false) :
    (a ++ c :: t).takeWhile p = a := by
  induction a with
  | nil => simp [List.takeWhile_cons, hc]
  | cons x xs ih =>
    simp only [List.all_cons, Bool.and_eq_true] at ha
    simp [List.takeWhile_cons, ha.1, ih ha.2]

/-- dropWhile over a satisfying run stops exactly at the first failing char. -/
theorem dropWhile_append_stop (p : Char → Bool) (a : List Char) (c : Char)
    (t : List Char) (ha : a.all p = true) (hc : p c = false) :
    (a ++ c :: t).dropWhile p = c :: t := by
  induction a with
  | nil => simp [List.dropWhile_cons, hc]
  | cons x xs ih =>
    simp only [List.all_cons, Bool.and_eq_true] at ha
    simp [List.dropWhile_cons, ha.1, ih ha.2]

/-- The pattern matches nothing at a position not starting with a bracket. -/
theorem matchAt_head_ne (c : Char) (t : List Char) (h : ¬ c = '[') :
    matchAt (c :: t) = none := by
  have hp : actionTag.isPrefixOf (c :: t) = false := by
    simp only [actionTag, List.isPrefixOf, Bool.and_eq_false_iff]
    left
    simpa using fun hc => h hc.symm
  simp [matchAt, hp]

/-- At the start of a well-formed directive, the pattern matches exactly the
directive and leaves exactly the following text. -/
theorem matchAt_full (d : Directive) (suf : List Char)
    (hwf : wfDirective d = true) :
    matchAt (d.full ++ suf) = some (d, suf) := by
  simp only [wfDirective, Bool.and_eq_true, Bool.not_eq_true'] at hwf
  obtain ⟨⟨⟨⟨hws, hnm⟩, hnw⟩, hag⟩, hac⟩ := hwf
  have hnnil : d.name ≠ [] := by
    intro h
    rw [h] at hnm
    simp at hnm
  obtain ⟨n0, nrest, hname⟩ := List.exists_cons_of_ne_nil hnnil
  have hn0w : isWordChar n0 = true := by
    rw [hname, List.all_cons, Bool.and_eq_true] at hnw
    exact hnw.1
  have hnw2 : d.name.all isWordChar = true := by
    rw [hname] at hnw ⊢
    exact hnw
  have harg2 : d.args.all (fun c => c ≠ ')') = true := by
    rw [List.all_eq_true] at hac ⊢
    intro c hcmem
    have := hac c hcmem
    simp only [Bool.and_eq_true, decide_eq_true_eq] at this ⊢
    exact this.1
  have h1 : d.full ++ suf
      = actionTag ++ (d.ws ++ (d.name ++ ('(' :: (d.args ++ (')' :: ']' :: suf))))) := by
    simp [Directive.full, List.append_assoc]
  have hpre : actionTag.isPrefixOf
      (actionTag ++ (d.ws ++ (d.name ++ ('(' :: (d.args ++ (')' :: ']' :: suf)))))) = true := by
    rw [List.isPrefixOf_iff_prefix]
    exact List.prefix_append _ _
  have hdrop : (actionTag ++ (d.ws ++ (d.name ++ ('(' :: (d.args ++ (')' :: ']' :: suf)))))).drop
      actionTag.length = d.ws ++ (d.name ++ ('(' :: (d.args ++ (')' :: ']' :: suf)))) :=
    List.drop_left _ _
  have htw : (d.ws ++ (d.name ++ ('(' :: (d.args ++ (')' :: ']' :: suf))))).takeWhile
      Char.isWhitespace = d.ws := by
    rw [hname]
    exact takeWhile_append_stop _ _ _ _ hws (word_not_space n0 hn0w)
  have hdw : (d.ws ++ (d.name ++ ('(' :: (d.args ++ (')' :: ']' :: suf))))).dropWhile
      Char.isWhitespace = d.name ++ ('(' :: (d.args ++ (')' :: ']' :: suf))) := by
    conv_lhs => rw [hname]
    rw [hname]
    exact dropWhile_append_stop _ _ _ _ hws (word_not_space n0 hn0w)
  have htw2 : (d.name ++ ('(' :: (d.args ++ (')' :: ']' :: suf)))).takeWhile isWordChar
      = d.name :=
    takeWhile_append_stop _ _ _ _ hnw2 (by decide)
  have hdrop2 : (d.name ++ ('(' :: (d.args ++ (')' :: ']' :: suf)))).drop d.name.length
      = '(' :: (d.args ++ (')' :: ']' :: suf)) :=
    List.drop_left _ _
  have htw3 : (d.args ++ (')' :: ']' :: suf)).takeWhile (fun c => c ≠ ')') = d.args :=
    takeWhile_append_stop _ _ _ _ harg2 (by decide)
  have hdrop3 : (d.args ++ (')' :: ']' :: suf)).drop d.args.length = ')' :: ']' :: suf :=
    List.drop_left _ _
  rw [h1]
  unfold matchAt
  simp only [hpre, if_true, hdrop, htw, hdw, htw2, hdrop2, htw3, hdrop3]
  have hne : d.name.isEmpty = false := hnm
  have hae : d.args.isEmpty = false := hag
  simp [hne, hae]

/-- scanFrom finds nothing in empty text. -/
theorem scanFrom_nil (f : Nat) : scanFrom f [] = [] := by
  cases f <;> rfl

/-- Scanning ignores a bracket-free prefix. -/
theorem scanFrom_skip (s : List Char) (hs : bracketFree s = true) :
    ∀ (cs : List Char) (f : Nat), s.length + cs.length ≤ f →
    scanFrom f (s ++ cs) = scanFrom (f - s.length) cs := by
  induction s with
  | nil => intro cs f _; simp
  | cons c s2 ih =>
    intro cs f hf
    simp only [bracketFree, List.all_cons, Bool.and_eq_true, decide_eq_true_eq] at hs
    cases f with
    | zero =>
      simp only [List.length_cons] at hf
      omega
    | succ f2 =>
      have hmc := matchAt_head_ne c (s2 ++ cs) hs.1
      have hstep : scanFrom (f2 + 1) (c :: (s2 ++ cs)) = scanFrom f2 (s2 ++ cs) := by
        rw [scanFrom.eq_3, hmc]
      have hf2 : s2.length + cs.length ≤ f2 := by
        simp only [List.length_cons] at hf
        omega
      rw [List.cons_append, hstep, ih (by simpa [bracketFree] using hs.2) cs f2 hf2]
      congr 1
      simp only [List.length_cons]
      omega

/-- A bracket-free text contains no match at all. -/
theorem scanFrom_bracketFree (s : List Char) (hs : bracketFree s = true)
    (f : Nat) (hf : s.length ≤ f) : scanFrom f s = [] := by
  have := scanFrom_skip s hs [] f (by simpa using hf)
  simpa [scanFrom_nil] using this

/-- The scanner run over an assembled text detects exactly the assembled
directives, in textual order. -/
theorem scanFrom_assemble (ds : List (Directive × List Char)) :
    ∀ (s0 : List Char) (f : Nat), bracketFree s0 = true →
    (∀ p ∈ ds, wfDirective p.1 = true ∧ bracketFree p.2 = true) →
    (assemble s0 ds).length ≤ f →
    scanFrom f (assemble s0 ds) = ds.map Prod.fst := by
  induction ds with
  | nil =>
    intro s0 f hs0 _ hf
    simpa [assemble] using scanFrom_bracketFree s0 hs0 f (by simpa [assemble] using hf)
  | cons p rest ih =>
    obtain ⟨d, s⟩ := p
    intro s0 f hs0 hds hf
    have hwf : wfDirective d = true := (hds (d, s) (by simp)).1
    have hbs : bracketFree s = true := (hds (d, s) (by simp)).2
    have hA : assemble s0 ((d, s) :: rest) = s0 ++ (d.full ++ assemble s rest) := by
      simp [assemble, List.append_assoc]
    rw [hA]
    have hlen : s0.length + (d.full ++ assemble s rest).length ≤ f := by
      have h0 : (s0 ++ (d.full ++ assemble s rest)).length ≤ f := by rw [← hA]; exact hf
      simpa using h0
    rw [scanFrom_skip s0 hs0 _ f hlen]
    have hfull0 : d.full = '[' :: ('A' :: 'C' :: 'T' :: 'I' :: 'O' :: 'N' :: ':' ::
        (d.ws ++ (d.name ++ ('(' :: (d.args ++ (')' :: ']' :: [])))))) := by
      simp [Directive.full, actionTag, List.append_assoc]
    obtain ⟨t2, ht2⟩ : ∃ t2, d.full = '[' :: t2 := ⟨_, hfull0⟩
    have hla : (d.full ++ assemble s rest).length
        = d.full.length + (assemble s rest).length := List.length_append _ _
    have hfl : 1 ≤ d.full.length := by
      rw [ht2]
      simp
    cases hg : f - s0.length with
    | zero => omega
    | succ g =>
      have hsplit : d.full ++ assemble s rest = '[' :: (t2 ++ assemble s rest) := by
        rw [ht2]
        rfl
      have hm : matchAt ('[' :: (t2 ++ assemble s rest)) = some (d, assemble s rest) := by
        rw [← hsplit]
        exact matchAt_full d (assemble s rest) hwf
      rw [hsplit]
      have hstep : scanFrom (g + 1) ('[' :: (t2 ++ assemble s rest))
          = d :: scanFrom g (assemble s rest) := by
        rw [scanFrom.eq_3, hm]
      rw [hstep]
      have hglen : (assemble s rest).length ≤ g := by omega
      rw [ih s g hbs (fun q hq => hds q (by simp [hq])) hglen]
      simp

/-- scanAll over an assembled text. -/
theorem scanAll_assemble (s0 : List Char) (ds : List (Directive × List Char))
    (hs0 : bracketFree s0 = true)
    (hds : ∀ p ∈ ds, wfDirective p.1 = true ∧ bracketFree p.2 = true) :
    scanAll (assemble s0 ds) = ds.map Prod.fst :=
  scanFrom_assemble ds s0 (assemble s0 ds).length hs0 hds (le_refl _)

/-- A list is a Boolean prefix of itself followed by anything. -/
theorem isPrefixOf_append_self (a b : List Char) :
    a.isPrefixOf (a ++ b) = true := by
  rw [List.isPrefixOf_iff_prefix]
  exact List.prefix_append _ _

/-- Every directive's matched substring starts with the opening bracket. -/
theorem full_cons (d : Directive) : ∃ t2, d.full = '[' :: t2 := by
  refine ⟨'A' :: 'C' :: 'T' :: 'I' :: 'O' :: 'N' :: ':' ::
    (d.ws ++ (d.name ++ ('(' :: (d.args ++ (')' :: ']' :: []))))), ?_⟩
  simp [Directive.full, actionTag, List.append_assoc]

/-- With a bracket-free prefix and a bracket-anchored target, `replaceFirst`
splices exactly at the intended position. -/
theorem replaceFirst_at (pre target suf repl : List Char)
    (hpre : bracketFree pre = true) (ht : ∃ t2, target = '[' :: t2) :
    replaceFirst (pre ++ (target ++ suf)) target repl = pre ++ (repl ++ suf) := by
  obtain ⟨t2, ht2⟩ := ht
  induction pre with
  | nil =>
    simp only [List.nil_append]
    rw [replaceFirst.eq_def]
    simp only [isPrefixOf_append_self, if_true, List.drop_left]
  | cons c pre2 ih =>
    simp only [bracketFree, List.all_cons, Bool.and_eq_true, decide_eq_true_eq] at hpre
    have hnp : target.isPrefixOf (c :: (pre2 ++ (target ++ suf))) = false := by
      rw [ht2]
      simp only [List.isPrefixOf, Bool.and_eq_false_iff]
      left
      simpa using fun hc => hpre.1 hc.symm
    rw [List.cons_append, replaceFirst.eq_def]
    simp only [hnp, Bool.false_eq_true, if_false]
    rw [ih (by simpa [bracketFree] using hpre.2)]
    rfl

/-- GetSubstitution is the identity on a pattern-free replacement
(length-bounded auxiliary form for the induction). -/
theorem getSubstitution_literal_aux (matched pre suf : List Char) :
    ∀ (n : Nat) (repl : List Char), repl.length ≤ n → dollarSafe repl = true →
    getSubstitution matched pre suf repl = repl := by
  intro n
  induction n with
  | zero =>
    intro repl hlen _
    have h0 : repl = [] := List.length_eq_zero.mp (Nat.le_zero.mp hlen)
    subst h0
    rfl
  | succ n ih =>
    intro repl hlen hsafe
    match repl with
    | [] => rfl
    | [c] => rfl
    | a :: b :: rest =>
      by_cases hcond : a = '$' ∧ (b = '$' ∨ b = '&' ∨ b = Char.ofNat 96 ∨ b = Char.ofNat 39)
      · rw [dollarSafe.eq_3, if_pos hcond] at hsafe
        simp at hsafe
      · rw [dollarSafe.eq_3, if_neg hcond] at hsafe
        have h1 : ¬ (a = '$' ∧ b = '$') := fun hx => hcond ⟨hx.1, Or.inl hx.2⟩
        have h2 : ¬ (a = '$' ∧ b = '&') := fun hx => hcond ⟨hx.1, Or.inr (Or.inl hx.2)⟩
        have h3 : ¬ (a = '$' ∧ b = Char.ofNat 96) :=
          fun hx => hcond ⟨hx.1, Or.inr (Or.inr (Or.inl hx.2))⟩
        have h4 : ¬ (a = '$' ∧ b = Char.ofNat 39) :=
          fun hx => hcond ⟨hx.1, Or.inr (Or.inr (Or.inr hx.2))⟩
        rw [getSubstitution.eq_3]
        simp only [h1, h2, h3, h4, if_false]
        have hlen2 : (b :: rest).length ≤ n := by
          simp only [List.length_cons] at hlen ⊢
          omega
        rw [ih (b :: rest) hlen2 hsafe]

/-- GetSubstitution is the identity on a pattern-free replacement. -/
theorem getSubstitution_literal (matched pre suf repl : List Char)
    (h : dollarSafe repl = true) :
    getSubstitution matched pre suf repl = repl :=
  getSubstitution_literal_aux matched pre suf repl.length repl (le_refl _) h

/-- With a bracket-free prefix and a bracket-anchored target, the first
occurrence sits exactly after the prefix. -/
theorem firstIndexOf_at (pre target suf : List Char)
    (hpre : bracketFree pre = true) (ht : ∃ t2, target = '[' :: t2) :
    firstIndexOf (pre ++ (target ++ suf)) target = some pre.length := by
  obtain ⟨t2, ht2⟩ := ht
  induction pre with
  | nil =>
    simp only [List.nil_append]
    rw [firstIndexOf.eq_def]
    simp [isPrefixOf_append_self]
  | cons c pre2 ih =>
    simp only [bracketFree, List.all_cons, Bool.and_eq_true, decide_eq_true_eq] at hpre
    have hnp : target.isPrefixOf (c :: (pre2 ++ (target ++ suf))) = false := by
      rw [ht2]
      simp only [List.isPrefixOf, Bool.and_eq_false_iff]
      left
      simpa using fun hc => hpre.1 hc.symm
    rw [List.cons_append, firstIndexOf.eq_def]
    simp only [hnp, Bool.false_eq_true, if_false]
    rw [ih (by simpa [bracketFree] using hpre.2)]
    rfl

/-- With a bracket-free prefix, a bracket-anchored target and a pattern-free
replacement, `jsReplaceFirst` splices the literal replacement exactly at the
intended position. -/
theorem jsReplaceFirst_at (pre target suf repl : List Char)
    (hpre : bracketFree pre = true) (ht : ∃ t2, target = '[' :: t2)
    (hrepl : dollarSafe repl = true) :
    jsReplaceFirst (pre ++ (target ++ suf)) target repl = pre ++ (repl ++ suf) := by
  simp only [jsReplaceFirst, firstIndexOf_at pre target suf hpre ht]
  have htake : (pre ++ (target ++ suf)).take pre.length = pre := List.take_left _ _
  have hdrop : (pre ++ (target ++ suf)).drop (pre.length + target.length) = suf := by
    rw [← List.append_assoc, ← List.length_append]
    exact List.drop_left _ _
  rw [htake, hdrop, getSubstitution_literal _ _ _ _ hrepl]
  simp [List.append_assoc]

/-- interleave distributes over an appended head segment. -/
theorem interleave_append (a b : List Char) (z : List (List Char × List Char)) :
    interleave (a ++ b) z = a ++ interleave b z := by
  cases z with
  | nil => rfl
  | cons q r2 =>
    obtain ⟨r, s⟩ := q
    simp [interleave, List.append_assoc]

/-- A freshly assembled text with a new head segment. -/
theorem assemble_absorb (x y s : List Char) (rest : List (Directive × List Char)) :
    x ++ (y ++ assemble s rest) = assemble (x ++ (y ++ s)) rest := by
  cases rest with
  | nil => simp [assemble]
  | cons q r2 =>
    obtain ⟨d2, s2⟩ := q
    simp [assemble, List.append_assoc]

/-- The substitution loop over an assembled text rewrites segment-wise while
threading the ledger state left to right. -/
theorem foldActions_assemble (roomId : String) (now : Int)
    (ds : List (Directive × List Char)) :
    ∀ (rooms : Rooms) (s0 : List Char),
    bracketFree s0 = true →
    (∀ p ∈ ds, wfDirective p.1 = true ∧ bracketFree p.2 = true) →
    (execResults rooms roomId now (ds.map Prod.fst)).2.all bracketFree = true →
    (execResults rooms roomId now (ds.map Prod.fst)).2.all dollarSafe = true →
    List.foldl
      (fun acc d =>
        let r := executeAction acc.1 roomId d now
        (r.1, jsReplaceFirst acc.2 d.full r.2))
      (rooms, assemble s0 ds) (ds.map Prod.fst)
    = ((execResults rooms roomId now (ds.map Prod.fst)).1,
       interleave s0 (((execResults rooms roomId now (ds.map Prod.fst)).2).zip
         (ds.map Prod.snd))) := by
  induction ds with
  | nil =>
    intro rooms s0 _ _ _ _
    simp [execResults, assemble, interleave]
  | cons p rest ih =>
    obtain ⟨d, s⟩ := p
    intro rooms s0 hs0 hds hbr hdol
    have hwf : wfDirective d = true := (hds (d, s) (by simp)).1
    have hbs : bracketFree s = true := (hds (d, s) (by simp)).2
    simp only [List.map_cons, List.foldl_cons]
    simp only [execResults] at hbr hdol ⊢
    simp only [List.all_cons, Bool.and_eq_true] at hbr hdol
    have hr2 : bracketFree (executeAction rooms roomId d now).2 = true := hbr.1
    have hA : assemble s0 ((d, s) :: rest) = s0 ++ (d.full ++ assemble s rest) := by
      simp [assemble, List.append_assoc]
    have hrepl : jsReplaceFirst (assemble s0 ((d, s) :: rest)) d.full
        (executeAction rooms roomId d now).2
        = s0 ++ ((executeAction rooms roomId d now).2 ++ assemble s rest) := by
      rw [hA]
      exact jsReplaceFirst_at s0 d.full (assemble s rest) _ hs0 (full_cons d) hdol.1
    have habs : s0 ++ ((executeAction rooms roomId d now).2 ++ assemble s rest)
        = assemble (s0 ++ ((executeAction rooms roomId d now).2 ++ s)) rest :=
      assemble_absorb _ _ _ _
    have hs0' : bracketFree (s0 ++ ((executeAction rooms roomId d now).2 ++ s)) = true := by
      simp only [bracketFree, List.all_append, Bool.and_eq_true]
      exact ⟨by simpa [bracketFree] using hs0,
        by simpa [bracketFree] using hr2,
        by simpa [bracketFree] using hbs⟩
    have hds2 : ∀ p ∈ rest, wfDirective p.1 = true ∧ bracketFree p.2 = true :=
      fun q hq => hds q (by simp [hq])
    have := ih (executeAction rooms roomId d now).1
      (s0 ++ ((executeAction rooms roomId d now).2 ++ s)) hs0' hds2 hbr.2 hdol.2
    simp only [hrepl, habs]
    rw [this]
    simp only [List.zip_cons_cons, interleave]
    rw [interleave_append, interleave_append]
    simp [List.append_assoc, List.zip]

/-- C8 counterexample: the directive `[ACTION: recordBuyIn($&, 5)]` is
well-formed, the plain segments and its execution result are bracket-free —
an input squarely of the claimed kind — yet the emitted final text is NOT
the segments with the literal result text spliced in: `String.replace`
expands the `$&` inside the result to the whole matched directive, so the
directive is not replaced by the literal result text of its execution. -/
theorem action_substitution_dollar_cex :
    wfDirective cexDirDollar = true
    ∧ bracketFree ("ok ".toList) = true
    ∧ (execResults cexRoomsC2 "r" 9 [cexDirDollar]).2.all bracketFree = true
    ∧ (applyActions cexRoomsC2 "r"
          (assemble "ok ".toList [(cexDirDollar, [])]) 9).2
        ≠ interleave "ok ".toList
            (((execResults cexRoomsC2 "r" 9 [cexDirDollar]).2).zip
              [([] : List Char)]) := by
  refine ⟨by decide, by decide, by decide, by decide⟩

/-- C8 amended: for every completed agent response text assembled from
bracket-free plain segments and embedded well-formed action directives,
every directive is detected (in left-to-right textual order) and executed
against the room's poker ledger in that order (threading the ledger state),
and the final response text substitutes each directive by its result text
passed through the JS replacement-pattern expansion; when every result text
is free of the special patterns (`dollarSafe`), the substitution is the
literal result text, in place.  The bracket-freedom hypotheses on segments
and result texts rule out a directive occurring inside a plain segment or a
result re-containing a directive, which is what anchors each replacement to
its own position. -/
theorem agent_actions_substituted (rooms : Rooms) (roomId : String) (now : Int)
    (s0 : List Char) (ds : List (Directive × List Char))
    (hs0 : bracketFree s0 = true)
    (hds : ∀ p ∈ ds, wfDirective p.1 = true ∧ bracketFree p.2 = true)
    (hbr : (execResults rooms roomId now (ds.map Prod.fst)).2.all
      bracketFree = true)
    (hdol : (execResults rooms roomId now (ds.map Prod.fst)).2.all
      dollarSafe = true) :
    scanAll (assemble s0 ds) = ds.map Prod.fst
    ∧ applyActions rooms roomId (assemble s0 ds) now
      = ((execResults rooms roomId now (ds.map Prod.fst)).1,
         interleave s0 (((execResults rooms roomId now (ds.map Prod.fst)).2).zip
           (ds.map Prod.snd))) := by
  refine ⟨scanAll_assemble s0 ds hs0 hds, ?_⟩
  unfold applyActions
  rw [scanAll_assemble s0 ds hs0 hds]
  exact foldActions_assemble roomId now ds rooms s0 hs0 hds hbr hdol

/-- C8 amended witness: a concrete response with two directives (whose
results are free of special replacement patterns) over the poker fixture
room; both are detected, executed in order and literally substituted. -/
theorem agent_actions_substituted_witness :
    scanAll (assemble "Sure: ".toList wsegs) = wsegs.map Prod.fst
    ∧ applyActions cexRoomsC2 "r" (assemble "Sure: ".toList wsegs) 9
      = ((execResults cexRoomsC2 "r" 9 (wsegs.map Prod.fst)).1,
         interleave "Sure: ".toList
           (((execResults cexRoomsC2 "r" 9 (wsegs.map Prod.fst)).2).zip
             (wsegs.map Prod.snd))) :=
  agent_actions_substituted cexRoomsC2 "r" 9 "Sure: ".toList wsegs
    (by decide) (by decide) (by decide) (by decide)

/-- C3: a `dispatch` on a busy identity handle: `processMessage` fails
immediately with `AlreadyProcessing` before consuming any stream message or
running any callback, no second invocation starts, and the caller's
`.catch` surfaces exactly a typing-stop and one system message — the
connection survives and the in-flight invocation's busy flag is untouched. -/
theorem busy_dispatch_rejected (rooms : Rooms)
    (msgs : List (String × List SMessage)) (roomId : String)
    (outcome : AgentOutcome) (now : Int) :
    processMessage true outcome = (PMResult.alreadyProcessing, true)
    ∧ (agentDispatch rooms msgs roomId true outcome now).invocationStarted = false
    ∧ (agentDispatch rooms msgs roomId true outcome now).emits
        = [SMessage.agentTyping roomId true, SMessage.agentTyping roomId false,
           SMessage.system (some roomId) "Locus agent encountered an error" now]
    ∧ (agentDispatch rooms msgs roomId true outcome now).busyAfter = true := by
  refine ⟨rfl, ?_, ?_, ?_⟩ <;> simp [agentDispatch]

/-- C3 witness: the busy rejection at a concrete outcome. -/
theorem busy_dispatch_rejected_witness :
    processMessage true (AgentOutcome.completes cexStreamC9 none)
      = (PMResult.alreadyProcessing, true)
    ∧ (agentDispatch [] [] "room1" true (AgentOutcome.completes cexStreamC9 none)
        3).invocationStarted = false
    ∧ (agentDispatch [] [] "room1" true (AgentOutcome.completes cexStreamC9 none)
        3).emits
        = [SMessage.agentTyping "room1" true, SMessage.agentTyping "room1" false,
           SMessage.system (some "room1") "Locus agent encountered an error" 3]
    ∧ (agentDispatch [] [] "room1" true (AgentOutcome.completes cexStreamC9 none)
        3).busyAfter = true :=
  busy_dispatch_rejected [] [] "room1" (AgentOutcome.completes cexStreamC9 none) 3

/-- C4: every dispatch that emits `agent_typing{true}` (it is always the
first emission) emits exactly one `agent_typing{false}` afterwards and ends
with the busy flag cleared, on every exit route: successful response, agent
(query) error, and an exception thrown during action-directive
substitution. -/
theorem typing_indicator_balanced (rooms : Rooms)
    (msgs : List (String × List SMessage)) (roomId : String)
    (outcome : AgentOutcome) (now : Int) :
    (agentDispatch rooms msgs roomId false outcome now).emits.head?
      = some (SMessage.agentTyping roomId true)
    ∧ (agentDispatch rooms msgs roomId false outcome now).emits.countP
        (fun m => m = SMessage.agentTyping roomId false) = 1
    ∧ (agentDispatch rooms msgs roomId false outcome now).busyAfter = false := by
  have hprog : ∀ (pcs : List (String × Int)),
      (pcs.map (fun pc =>
        SMessage.agentProgress roomId (progressText pc.1) pc.1 pc.2)).countP
        (fun m => m = SMessage.agentTyping roomId false) = 0 := by
    intro pcs
    rw [List.countP_eq_zero]
    intro a ha
    simp only [List.mem_map] at ha
    obtain ⟨pc, _, rfl⟩ := ha
    simp
  cases outcome with
  | fails processed =>
    refine ⟨?_, ?_, ?_⟩ <;>
      simp [agentDispatch, List.countP_cons, List.countP_append, hprog]
  | completes stream substFail =>
    cases substFail with
    | none =>
      refine ⟨?_, ?_, ?_⟩ <;>
        simp [agentDispatch, List.countP_cons, List.countP_append, hprog]
    | some k =>
      refine ⟨?_, ?_, ?_⟩ <;>
        simp [agentDispatch, List.countP_cons, List.countP_append, hprog]

/-- C4 witness: a concrete dispatch on a free handle. -/
theorem typing_indicator_balanced_witness :
    (agentDispatch [] [] "room1" false (AgentOutcome.fails cexStreamC9)
        3).emits.head? = some (SMessage.agentTyping "room1" true)
    ∧ (agentDispatch [] [] "room1" false (AgentOutcome.fails cexStreamC9)
        3).emits.countP (fun m => m = SMessage.agentTyping "room1" false) = 1
    ∧ (agentDispatch [] [] "room1" false (AgentOutcome.fails cexStreamC9)
        3).busyAfter = false :=
  typing_indicator_balanced [] [] "room1" (AgentOutcome.fails cexStreamC9) 3

/-- C9 counterexample: two `tool_progress` callbacks for the same tool in a
single invocation produce two `agent_progress` emissions to the room — the
progress callback fires before the dedup bookkeeping, so "at most one per
distinct tool name" is false. -/
theorem progress_dedup_cex :
    ¬ ((agentDispatch [] [] "room1" false
        (AgentOutcome.completes cexStreamC9 none) 3).emits.countP
        (isProgressEmit "get_wallet_balance") ≤ 1) := by decide

/-- The inner `tool_use` fold preserves the dedup invariant. -/
theorem inner_fold_inv (names : List String) :
    ∀ acc : LoopState, progressInv acc →
    progressInv (names.foldl
      (fun acc name =>
        if name ∈ acc.toolsUsed then acc
        else
          { acc with
              toolsUsed := acc.toolsUsed ++ [name]
              progressCalls := acc.progressCalls ++ [(name, 0)] })
      acc) := by
  induction names with
  | nil => intro acc h; exact h
  | cons n ns ih =>
    intro acc h
    simp only [List.foldl_cons]
    by_cases hn : n ∈ acc.toolsUsed
    · simp only [hn, if_true]
      exact ih acc h
    · simp only [hn, if_false]
      apply ih
      have hnotin : n ∉ acc.progressCalls.map Prod.fst := fun hmem => hn (h.2 n hmem)
      constructor
      · simp only [List.map_append, List.map_cons, List.map_nil]
        simp [List.nodup_append, h.1, hnotin]
      · intro x hx
        simp only [List.map_append, List.map_cons, List.map_nil, List.mem_append,
          List.mem_singleton] at hx
        rcases hx with hx | hx
        · exact List.mem_append_left _ (h.2 x hx)
        · subst hx
          exact List.mem_append_right _ (by simp)

/-- A non-`tool_progress` stream message preserves the dedup invariant. -/
theorem stepMsg_inv (ls : LoopState) (m : StreamMsg)
    (hm : ∀ t e, m ≠ StreamMsg.toolProgress t e) (h : progressInv ls) :
    progressInv (stepMsg ls m) := by
  cases m with
  | system => exact h
  | result ok => exact h
  | toolProgress t e => exact absurd rfl (hm t e)
  | assistant content =>
    simp only [stepMsg]
    apply inner_fold_inv
    split
    · exact h
    · exact h

/-- C9 amended: within one invocation, progress events originating from
assistant `tool_use` content blocks are deduplicated by tool name (the
emitted tool names stay pairwise distinct as long as no `tool_progress`
stream callback occurs), while every `tool_progress` stream callback
unconditionally appends exactly one progress emission, deduplicated or
not — repeated `tool_progress` messages for one tool emit repeatedly. -/
theorem progress_dedup_amended :
    (∀ stream : List StreamMsg,
      (∀ t e, StreamMsg.toolProgress t e ∉ stream) →
      ((runStream stream).progressCalls.map Prod.fst).Nodup)
    ∧ (∀ (s : List StreamMsg) (t : String) (e : Int),
        (runStream (s ++ [StreamMsg.toolProgress t e])).progressCalls
          = (runStream s).progressCalls ++ [(t, e)]) := by
  constructor
  · intro stream hstream
    have hgen : ∀ (str : List StreamMsg) (acc : LoopState),
        (∀ t e, StreamMsg.toolProgress t e ∉ str) → progressInv acc →
        progressInv (str.foldl stepMsg acc) := by
      intro str
      induction str with
      | nil => intro acc _ h; exact h
      | cons m ms ih =>
        intro acc hstr h
        simp only [List.foldl_cons]
        refine ih _ (fun t e hmem => hstr t e (List.mem_cons_of_mem m hmem)) ?_
        refine stepMsg_inv acc m (fun t e heq => ?_) h
        exact hstr t e (heq ▸ List.mem_cons_self m ms)
    exact (hgen stream ⟨[], [], []⟩ hstream ⟨List.nodup_nil, by simp⟩).1
  · intro s t e
    unfold runStream
    rw [List.foldl_append]
    simp only [List.foldl_cons, List.foldl_nil, stepMsg]
    by_cases hmem : t ∈ (s.foldl stepMsg ⟨[], [], []⟩).toolsUsed
    · simp [hmem]
    · simp [hmem]

end Locus
